import Mathlib

/-!
Verification of the transcript keyword analyzer: the linguistic match
classifier (`src/jre_analyzer/search.py`) and the probabilistic fair-value
estimator (`src/jre_analyzer/fair_value.py`).

Strings of the Python source are embedded as `List Char`.  A Python function
that can raise on some input is embedded with an `Option` codomain, `none`
standing for the raised exception.  Real (float) arithmetic of the estimator
is embedded over `ℝ`.
-/

namespace JRE

/-! ### Match classifier (`search.py`) -/

/-- `_VOWELS` from `search.py`: the set `frozenset("aeiou")`. -/
def _VOWELS : List Char := ['a', 'e', 'i', 'o', 'u']

/-- `_FALSE_COMPOUNDS` from `search.py`: explicit (word, term) pairs where the
compound heuristic fires but the match is rejected. -/
def _FALSE_COMPOUNDS : List (List Char × List Char) :=
  [("thirteen", "teen"), ("fourteen", "teen"), ("fifteen", "teen"),
   ("sixteen", "teen"), ("seventeen", "teen"), ("eighteen", "teen"),
   ("nineteen", "teen"),
   ("fundamental", "fun"), ("fundamentals", "fun"),
   ("fundamentally", "fun"), ("fundamentalist", "fun"),
   ("fundamentalists", "fun"), ("fundamentalism", "fun"),
   ("function", "fun"), ("functions", "fun"),
   ("functional", "fun"), ("functionally", "fun"),
   ("functionality", "fun"), ("functioning", "fun"),
   ("fund", "fun"), ("funds", "fun"),
   ("funded", "fun"), ("funding", "fun")].map
    (fun p => (p.1.toList, p.2.toList))

/-- `_DERIVATIONAL_SUFFIXES` from `search.py`. -/
def _DERIVATIONAL_SUFFIXES : List (List Char) :=
  ["ful", "fully", "ness", "nesses",
   "ly",
   "ous", "ously", "ousness",
   "ish",
   "tion", "tions", "sion", "sions",
   "al", "ial", "ials", "ially",
   "ive", "ives", "ively",
   "ment", "ments",
   "less", "lessly", "lessness",
   "dom", "hood", "ship", "ships",
   "ity", "ities",
   "ize", "ized", "izes", "izing",
   "ise", "ised", "ises", "ising",
   "ify", "ified", "ifying",
   "ate", "ated", "ating", "ation", "ations",
   "ing", "ings",
   "ed",
   "er", "ers",
   "est",
   "ier", "iest",
   "en", "ens",
   "ward", "wards",
   "wise"].map String.toList

/-- `_DIMINUTIVE_SUFFIXES` from `search.py`. -/
def _DIMINUTIVE_SUFFIXES : List (List Char) :=
  ["y", "ie", "ies"].map String.toList

/-- `_FALSE_PREFIX_STEMS` from `search.py`: a dict with the single key
`"fun"`; `.get(term, ())` yields the empty tuple for every other term. -/
def _FALSE_PREFIX_STEMS (term : List Char) : List (List Char) :=
  if term = "fun".toList then ["funn", "fund", "funct"].map String.toList else []

/-- Python `word.find(term)`: index of the first occurrence of `term` as a
substring of `word`, `none` when absent (Python returns `-1`).  For an empty
`term` Python returns `0`, as does this function. -/
def findSub (t : List Char) : List Char → Option Nat
  | [] => if t.isPrefixOf ([] : List Char) then some 0 else none
  | c :: rest =>
    if t.isPrefixOf (c :: rest) then some 0
    else (findSub t rest).map (fun i => i + 1)

/-- The `pos == 0` arm of the compound rule of `is_valid_match` (term at the
start of the word).  `after` is `word[len(term):]`.  Python evaluates
`term[-1]` here, which raises `IndexError` when `term` is empty and `after`
is not; that raise is embedded as `none`. -/
def compoundAtStart (term after : List Char) : Option Bool :=
  match after with
  | [] => some false
  | a0 :: arest =>
    match term.getLast? with
    | none => none
    | some tlast =>
      if a0 = tlast ∧ arest ∈ _DERIVATIONAL_SUFFIXES then some false
      else if a0 = tlast ∧ arest ∈ _DIMINUTIVE_SUFFIXES then some false
      else if after ∈ _DIMINUTIVE_SUFFIXES then some false
      else if a0 = 's' ∧ arest ∈ _DIMINUTIVE_SUFFIXES then some false
      else if after ∈ _DERIVATIONAL_SUFFIXES then some false
      else if term.length ≤ after.length ∧ a0 ∉ _VOWELS then some true
      else some false

/-- `is_valid_match(word, term)` from `search.py`: exact / plural / compound
match rules with exception tables, applied in source order.  `some b` is the
Python return value `b`; `none` is the `IndexError` the source raises when it
reaches `term[-1]` with an empty `term`. -/
def is_valid_match (word term : List Char) : Option Bool :=
  if word.length < term.length then some false
  else if (word, term) ∈ _FALSE_COMPOUNDS then some false
  else if (_FALSE_PREFIX_STEMS term).any (fun stem => stem.isPrefixOf word) then
    some false
  else if word = term then some true
  else if word = term ++ ['e', 's'] then some true
  else if word = term ++ ['s'] ∧ ¬ term.getLast? = some 'e' then some true
  else
    match findSub term word with
    | none => some false
    | some pos =>
      let after := word.drop (pos + term.length)
      if pos = 0 then compoundAtStart term after
      else if pos < term.length then some false
      else if after ≠ [] ∧ after ≠ ['s'] ∧ after ≠ ['e', 's'] then some false
      else some true

/-! ### Adjacency-deduplicated multi-keyword counting (`search_multi_adjacent`) -/

/-- A token matches the multi-keyword search when it is a valid match for any
of the terms: `any(is_valid_match(token, t) for t in terms)` in
`search_multi_adjacent`. -/
def matchesAny (terms : List (List Char)) (token : List Char) : Bool :=
  terms.any (fun t => is_valid_match token t == some true)

/-- The token loop of `search_multi_adjacent` for one segment: walks the
segment's tokens with the running mention `count` and the `in_run` flag,
incrementing `count` only at the first matching token of a run. -/
def scanTokens (terms : List (List Char)) :
    List (List Char) → Nat → Bool → Nat
  | [], count, _ => count
  | tok :: rest, count, in_run =>
    if matchesAny terms tok then
      if in_run then scanTokens terms rest count true
      else scanTokens terms rest (count + 1) true
    else scanTokens terms rest count false

/-- The per-episode mention count of `search_multi_adjacent`: the segment
loop, with `in_run` reset to `False` at every segment boundary.  A segment is
given by its token stream (`re.findall` of the lowered text, upstream of this
loop). -/
def countAdjacentMentions (terms : List (List Char))
    (segments : List (List (List Char))) : Nat :=
  segments.foldl (fun count seg => scanTokens terms seg count false) 0

/-- Spec-side description of adjacency de-duplication: the number of maximal
contiguous runs of `true` in a list of per-token match flags, counted by
scanning with the flag of the previous position (`false` before the first
token).  A position starts a maximal run exactly when it matches and its
predecessor does not. -/
def specRunCountFrom : Bool → List Bool → Nat
  | _, [] => 0
  | prev, b :: rest => (if b && !prev then 1 else 0) + specRunCountFrom b rest

/-- Spec-side mention count of one segment: its number of maximal contiguous
runs of matching tokens. -/
def specRunCount (flags : List Bool) : Nat := specRunCountFrom false flags

theorem scanTokens_eq (terms : List (List Char)) (toks : List (List Char)) :
    ∀ (count : Nat) (prev : Bool),
      scanTokens terms toks count prev =
        count + specRunCountFrom prev (toks.map (matchesAny terms)) := by
  induction toks with
  | nil => intro count prev; simp [scanTokens, specRunCountFrom]
  | cons tok rest ih =>
    intro count prev
    by_cases h : matchesAny terms tok
    · cases prev <;> simp [scanTokens, specRunCountFrom, h, ih]
      all_goals omega
    · simp [scanTokens, specRunCountFrom, h, ih]

theorem countAdjacentMentions_foldl (terms : List (List Char))
    (segments : List (List (List Char))) :
    ∀ acc : Nat,
      segments.foldl (fun count seg => scanTokens terms seg count false) acc =
        acc + (segments.map
          (fun seg => specRunCount (seg.map (matchesAny terms)))).sum := by
  induction segments with
  | nil => intro acc; simp
  | cons seg rest ih =>
    intro acc
    simp only [List.foldl_cons, List.map_cons, List.sum_cons]
    rw [ih, scanTokens_eq]
    simp [specRunCount]
    omega

/-! ### Helper lemmas for the classifier theorems -/

theorem compoundAtStart_isSome (term after : List Char) (h : term ≠ []) :
    (compoundAtStart term after).isSome = true := by
  unfold compoundAtStart
  split
  · rfl
  · split
    · next heq => exact absurd (List.getLast?_eq_none_iff.mp heq) h
    · repeat' split
      all_goals rfl

theorem findSub_append_self (t x : List Char) : findSub t (t ++ x) = some 0 := by
  cases t with
  | nil => cases x <;> simp [findSub]
  | cons c cs => simp [findSub, List.isPrefixOf_iff_prefix]

theorem compoundAtStart_single_s (term : List Char)
    (he : term.getLast? = some 'e') (hlen : 2 ≤ term.length) :
    compoundAtStart term ['s'] = some false := by
  simp only [compoundAtStart, he]
  split_ifs with h1 h2 h3 h4 h5 h6
  · rfl
  · rfl
  · rfl
  · rfl
  · rfl
  · exact absurd h6.1 (by simp; omega)
  · rfl

theorem is_valid_match_append_es (term : List Char)
    (hfc : (term ++ ['e', 's'], term) ∉ _FALSE_COMPOUNDS)
    (hst : (_FALSE_PREFIX_STEMS term).any
      (fun stem => stem.isPrefixOf (term ++ ['e', 's'])) = false) :
    is_valid_match (term ++ ['e', 's']) term = some true := by
  unfold is_valid_match
  rw [if_neg (by simp only [List.length_append, List.length_cons,
        List.length_nil]; omega),
      if_neg hfc, if_neg (by simp [hst]), if_neg (by simp), if_pos rfl]

theorem append_s_ne_append_es (term : List Char) :
    ¬ term ++ ['s'] = term ++ ['e', 's'] := by
  intro hcontra
  have hL := congrArg List.length hcontra
  simp only [List.length_append, List.length_cons, List.length_nil] at hL
  omega

theorem is_valid_match_append_s_of_not_e (term : List Char)
    (hfc : (term ++ ['s'], term) ∉ _FALSE_COMPOUNDS)
    (hst : (_FALSE_PREFIX_STEMS term).any
      (fun stem => stem.isPrefixOf (term ++ ['s'])) = false)
    (he : ¬ term.getLast? = some 'e') :
    is_valid_match (term ++ ['s']) term = some true := by
  unfold is_valid_match
  rw [if_neg (by simp only [List.length_append, List.length_cons,
        List.length_nil]; omega),
      if_neg hfc, if_neg (by simp [hst]), if_neg (by simp),
      if_neg (append_s_ne_append_es term),
      if_pos ⟨rfl, he⟩]

theorem is_valid_match_append_s_of_ends_e (term : List Char)
    (hfc : (term ++ ['s'], term) ∉ _FALSE_COMPOUNDS)
    (hst : (_FALSE_PREFIX_STEMS term).any
      (fun stem => stem.isPrefixOf (term ++ ['s'])) = false)
    (he : term.getLast? = some 'e') (hlen : 2 ≤ term.length) :
    is_valid_match (term ++ ['s']) term = some false := by
  unfold is_valid_match
  rw [if_neg (by simp only [List.length_append, List.length_cons,
        List.length_nil]; omega),
      if_neg hfc, if_neg (by simp [hst]), if_neg (by simp),
      if_neg (append_s_ne_append_es term),
      if_neg (by simp [he]), findSub_append_self]
  simp only [Nat.zero_add, List.drop_left, if_pos rfl]
  exact compoundAtStart_single_s term he hlen

/-! ### Claims about the match classifier -/

/-- C1: the match classifier returns true for the pairs (joy, joy),
(joys, joy), (joyes, joy), (killjoy, joy), (joystick, joy), (funhouse, fun),
(badass, ass), and false for (joyful, joy), (thirteen, teen),
(fundamental, fun), (class, ass), (assume, ass), (embarrassing, ass). -/
theorem is_valid_match_market_examples :
    is_valid_match "joy".toList "joy".toList = some true ∧
    is_valid_match "joys".toList "joy".toList = some true ∧
    is_valid_match "joyes".toList "joy".toList = some true ∧
    is_valid_match "killjoy".toList "joy".toList = some true ∧
    is_valid_match "joystick".toList "joy".toList = some true ∧
    is_valid_match "funhouse".toList "fun".toList = some true ∧
    is_valid_match "badass".toList "ass".toList = some true ∧
    is_valid_match "joyful".toList "joy".toList = some false ∧
    is_valid_match "thirteen".toList "teen".toList = some false ∧
    is_valid_match "fundamental".toList "fun".toList = some false ∧
    is_valid_match "class".toList "ass".toList = some false ∧
    is_valid_match "assume".toList "ass".toList = some false ∧
    is_valid_match "embarrassing".toList "ass".toList = some false := by
  decide

/-- C5 counterexample: with term "e" and word "es", every earlier rule
passes through (length guard holds, neither exception table fires, the word
is not the term), the term ends in the letter e, and yet the classifier
accepts the word (the compound rule accepts it after the plural rule
declines), refuting the claimed "if and only if". -/
theorem plural_s_iff_cex :
    "es".toList = "e".toList ++ ['s'] ∧
    ("es".toList, "e".toList) ∉ _FALSE_COMPOUNDS ∧
    ((_FALSE_PREFIX_STEMS "e".toList).any
      (fun stem => stem.isPrefixOf "es".toList)) = false ∧
    "es".toList ≠ "e".toList ∧
    ("e".toList).getLast? = some 'e' ∧
    is_valid_match "es".toList "e".toList = some true := by
  decide

/-- C5 (amended): for every term on which the exception tables do not fire,
term + "es" always matches; term + "s" matches when the term does not end in
the letter e; and when the term ends in e and has length at least two, the
classifier rejects term + "s" (for the single-character term "e" the later
compound rule accepts it, so the original "if and only if" fails there). -/
theorem plural_rule_characterization (term : List Char) :
    (((term ++ ['e', 's'], term) ∉ _FALSE_COMPOUNDS →
      ((_FALSE_PREFIX_STEMS term).any
        (fun stem => stem.isPrefixOf (term ++ ['e', 's']))) = false →
      is_valid_match (term ++ ['e', 's']) term = some true) ∧
     ((term ++ ['s'], term) ∉ _FALSE_COMPOUNDS →
      ((_FALSE_PREFIX_STEMS term).any
        (fun stem => stem.isPrefixOf (term ++ ['s']))) = false →
      ¬ term.getLast? = some 'e' →
      is_valid_match (term ++ ['s']) term = some true) ∧
     ((term ++ ['s'], term) ∉ _FALSE_COMPOUNDS →
      ((_FALSE_PREFIX_STEMS term).any
        (fun stem => stem.isPrefixOf (term ++ ['s']))) = false →
      term.getLast? = some 'e' → 2 ≤ term.length →
      is_valid_match (term ++ ['s']) term = some false)) :=
  ⟨fun hfc hst => is_valid_match_append_es term hfc hst,
   fun hfc hst he => is_valid_match_append_s_of_not_e term hfc hst he,
   fun hfc hst he hl => is_valid_match_append_s_of_ends_e term hfc hst he hl⟩

/-- C9 counterexample: on word "x" and the empty term the source raises an
IndexError (it evaluates the last character of the empty term), embedded
here as the classifier returning `none`; so the classifier is not total over
all pairs of strings. -/
theorem is_valid_match_raises_on_empty_term :
    is_valid_match "x".toList "".toList = none := by decide

/-- C9 (amended): for every word and every nonempty term the classifier
returns a boolean (it never raises), and evaluating it twice on the same
inputs yields the same result. -/
theorem is_valid_match_total_for_nonempty_term (word term : List Char)
    (h : term ≠ []) :
    (is_valid_match word term).isSome = true ∧
      is_valid_match word term = is_valid_match word term := by
  refine ⟨?_, rfl⟩
  unfold is_valid_match
  repeat' split
  all_goals first
  | rfl
  | exact compoundAtStart_isSome _ _ h
  | (dsimp only; split <;> rfl)

/-- Witness for the amended C9 theorem at word "joyful", term "joy". -/
theorem is_valid_match_total_witness :
    (is_valid_match "joyful".toList "joy".toList).isSome = true ∧
      is_valid_match "joyful".toList "joy".toList =
        is_valid_match "joyful".toList "joy".toList :=
  is_valid_match_total_for_nonempty_term "joyful".toList "joy".toList
    (by decide)

/-- C8: in multi-term OR adjacency search each maximal contiguous run of
consecutive matching tokens within one segment contributes exactly one
mention (runs reset at segment boundaries and at non-matching tokens), and
in particular adjacent tokens "joe", "biden" with terms ["joe", "biden"]
count as exactly one mention. -/
theorem adjacency_dedup_counts_runs :
    (∀ (terms : List (List Char)) (segments : List (List (List Char))),
      countAdjacentMentions terms segments =
        (segments.map
          (fun seg => specRunCount (seg.map (matchesAny terms)))).sum) ∧
    countAdjacentMentions ["joe".toList, "biden".toList]
      [["and".toList, "joe".toList, "biden".toList, "said".toList]] = 1 := by
  constructor
  · intro terms segments
    simpa [countAdjacentMentions] using
      countAdjacentMentions_foldl terms segments 0
  · decide

/-! ### Fair-value estimator (`fair_value.py`)

Floats are embedded as exact reals.  `scipy.stats.nbinom.pmf` is an external
library function; every definition that calls it takes it as a parameter
`nbinom_pmf` with `nbinom_pmf k r p` standing for
`scipy.stats.nbinom.pmf(k, r, p)`.  `HAS_SCIPY` is taken as true.  The Python
booleans computed from real comparisons are embedded as propositions. -/

open scoped Classical

/-- `MAX_BUCKET` from `fair_value.py`: counts above this are grouped into a
final "25+" bucket. -/
def MAX_BUCKET : ℕ := 25

/-- `EpisodeResult` from `search.py`. -/
structure EpisodeResult where
  episode_id : ℤ
  title : List Char
  episode_date : Option (List Char)
  episode_number : Option ℤ
  duration_seconds : ℕ
  count : ℕ
  per_minute : ℝ

/-- `per_minute_rate` from `analyzer.py`: mentions per minute, `0.0` when the
duration is zero (Python `if not duration_seconds`). -/
noncomputable def per_minute_rate (count : ℕ) (duration_seconds : ℕ) : ℝ :=
  if duration_seconds = 0 then 0
  else (count : ℝ) / ((duration_seconds : ℝ) / 60)

/-- `SearchResult` from `search.py` (the rolling-average fields default to
`None` and play no role in the estimator). -/
structure SearchResult where
  keyword : List Char
  episodes : List EpisodeResult := []
  avg_last_1 : Option ℝ := none
  avg_last_5 : Option ℝ := none
  avg_last_20 : Option ℝ := none
  avg_last_50 : Option ℝ := none
  avg_last_100 : Option ℝ := none
  avg_pm_last_1 : Option ℝ := none
  avg_pm_last_5 : Option ℝ := none
  avg_pm_last_20 : Option ℝ := none
  avg_pm_last_50 : Option ℝ := none
  avg_pm_last_100 : Option ℝ := none

/-- `FairValueResult` from `fair_value.py`.  The Python probability dicts
carry exactly the keys 0..MAX_BUCKET; the embedding maps every other index
to 0. -/
structure FairValueResult where
  keyword : List Char
  lambda_estimate : ℝ
  lookback_episodes : ℕ
  mean : ℝ
  variance : ℝ
  overdispersed : Prop
  poisson_pmf : ℕ → ℝ
  poisson_sf : ℕ → ℝ
  empirical_pmf : ℕ → ℝ
  empirical_sf : ℕ → ℝ
  negbin_pmf : Option (ℕ → ℝ)
  negbin_sf : Option (ℕ → ℝ)
  reference_minutes : Option ℝ := none
  zero_inflated : Prop := False
  pi_estimate : Option ℝ := none
  zinb_pmf : Option (ℕ → ℝ) := none
  zinb_sf : Option (ℕ → ℝ) := none

/-- Python built-in `round` over the reals: round half to even. -/
noncomputable def pythonRound (x : ℝ) : ℤ :=
  if x - ⌊x⌋ < 1 / 2 then ⌊x⌋
  else if 1 / 2 < x - ⌊x⌋ then ⌊x⌋ + 1
  else if Even ⌊x⌋ then ⌊x⌋ else ⌊x⌋ + 1

/-- Python `round(x, 4)` (used on the zero-inflation weight). -/
noncomputable def pythonRound4 (x : ℝ) : ℝ :=
  ((pythonRound (x * 10000) : ℤ) : ℝ) / 10000

/-- `_poisson_pmf` from `fair_value.py`.  The float overflow guard of the
source (`except OverflowError: return 0.0`) cannot fire in exact real
arithmetic. -/
noncomputable def _poisson_pmf (lam : ℝ) (k : ℕ) : ℝ :=
  if lam ≤ 0 then (if k = 0 then 1 else 0)
  else Real.exp (-lam) * lam ^ k / (Nat.factorial k)

/-- `_poisson_pmf_dict` from `fair_value.py`: buckets below MAX_BUCKET carry
the Poisson pmf, the last bucket absorbs the remaining tail mass. -/
noncomputable def _poisson_pmf_dict (lam : ℝ) : ℕ → ℝ :=
  fun k =>
    if k < MAX_BUCKET then _poisson_pmf lam k
    else if k = MAX_BUCKET then
      max 0 (1 - ∑ j ∈ Finset.range MAX_BUCKET, _poisson_pmf lam j)
    else 0

/-- `_empirical_pmf` from `fair_value.py`: histogram of the integer counts,
each count adding `1/n` to its bucket `min c MAX_BUCKET`. -/
noncomputable def _empirical_pmf (counts : List ℕ) (n : ℕ) : ℕ → ℝ :=
  fun k =>
    if k ≤ MAX_BUCKET then
      ((counts.countP (fun c => min c MAX_BUCKET == k)) : ℝ) / n
    else 0

/-- `_negbin_pmf_dict` from `fair_value.py`: method-of-moments fit
`p = mean/variance`, `r = mean*p/(1-p)`, unavailable (`None`) when
`variance <= mean`, `r <= 0`, or `p` is outside (0, 1). -/
noncomputable def _negbin_pmf_dict (nbinom_pmf : ℕ → ℝ → ℝ → ℝ)
    (mean variance : ℝ) : Option (ℕ → ℝ) :=
  if variance ≤ mean then none
  else
    let p := mean / variance
    let r := mean * p / (1 - p)
    if r ≤ 0 ∨ ¬ (0 < p ∧ p < 1) then none
    else some (fun k =>
      if k < MAX_BUCKET then nbinom_pmf k r p
      else if k = MAX_BUCKET then
        max 0 (1 - ∑ j ∈ Finset.range MAX_BUCKET, nbinom_pmf j r p)
      else 0)

/-- `_zinb_pmf_dict` from `fair_value.py`: the zero-inflated NB mixture
table and the rounded mixture weight, or `(None, None)` on any fit
failure. -/
noncomputable def _zinb_pmf_dict (nbinom_pmf : ℕ → ℝ → ℝ → ℝ)
    (mean variance zero_fraction : ℝ) : Option (ℕ → ℝ) × Option ℝ :=
  if variance ≤ mean ∨ mean ≤ 0 then (none, none)
  else
    let p_nb := mean / variance
    let r_nb := mean * p_nb / (1 - p_nb)
    if r_nb ≤ 0 ∨ ¬ (0 < p_nb ∧ p_nb < 1) then (none, none)
    else
      let p_0_nb := nbinom_pmf 0 r_nb p_nb
      if zero_fraction ≤ p_0_nb then (none, none)
      else
        let piw := max 0 (min ((zero_fraction - p_0_nb) / (1 - p_0_nb)) 0.999)
        (some (fun k =>
          if k < MAX_BUCKET then
            (if k = 0 then piw else 0) + (1 - piw) * nbinom_pmf k r_nb p_nb
          else if k = MAX_BUCKET then
            max 0 (1 - ∑ j ∈ Finset.range MAX_BUCKET,
              ((if j = 0 then piw else 0) + (1 - piw) * nbinom_pmf j r_nb p_nb))
          else 0),
         some (pythonRound4 piw))

/-- `_sf_from_pmf` from `fair_value.py`: the survival function over the
bucket keys 0..MAX_BUCKET, clamped to [0, 1]. -/
noncomputable def _sf_from_pmf (pmf : ℕ → ℝ) : ℕ → ℝ :=
  fun k =>
    if k ≤ MAX_BUCKET then
      max 0 (min 1 (1 - ∑ j ∈ Finset.range k, pmf j))
    else 0

/-- The uniform no-data table of `calculate_fair_value`
(`uniform = 1.0 / (MAX_BUCKET + 1)` on every bucket). -/
noncomputable def uniformPMF : ℕ → ℝ :=
  fun k => if k ≤ MAX_BUCKET then 1 / ((MAX_BUCKET : ℝ) + 1) else 0

/-- The no-data survival table of `calculate_fair_value`, built inline in
the source as `1.0 - sum(uniform_pmf[j] for j in range(i))`. -/
noncomputable def uniformSF : ℕ → ℝ :=
  fun k =>
    if k ≤ MAX_BUCKET then 1 - ∑ j ∈ Finset.range k, uniformPMF j else 0

/-- Python `sorted`: one insertion step. -/
def insertSorted (x : ℕ) : List ℕ → List ℕ
  | [] => [x]
  | y :: ys => if x ≤ y then x :: y :: ys else y :: insertSorted x ys

/-- Python `sorted` over natural numbers (insertion sort). -/
def sortedNat : List ℕ → List ℕ
  | [] => []
  | x :: xs => insertSorted x (sortedNat xs)

/-- The duration-normalization step of `calculate_fair_value` (source lines
99-112): from the lookback episodes, the triple
(`ref_minutes`, `eff_counts`, `int_counts`).  When some episode has a
positive duration, the reference length is the element at index
`len(dur_sorted) // 2` of the sorted durations (in minutes) and each
duration-bearing episode contributes `per_minute * ref` (rounded and clamped
at zero for the integer counts); otherwise raw counts are used and the
reference is `None`. -/
noncomputable def durationNormalize (all_eps : List EpisodeResult) :
    Option ℝ × List ℝ × List ℕ :=
  let eps_with_dur := all_eps.filter (fun ep => 0 < ep.duration_seconds)
  if eps_with_dur ≠ [] then
    let dur_sorted :=
      sortedNat (eps_with_dur.map (fun ep => ep.duration_seconds))
    let ref := ((dur_sorted.getD (dur_sorted.length / 2) 0 : ℕ) : ℝ) / 60
    (some ref,
     eps_with_dur.map (fun ep => ep.per_minute * ref),
     eps_with_dur.map (fun ep =>
       (max 0 (pythonRound (ep.per_minute * ref))).toNat))
  else
    (none, all_eps.map (fun ep => (ep.count : ℝ)),
     all_eps.map (fun ep => ep.count))

theorem durationNormalize_nil : durationNormalize [] = (none, [], []) := by
  simp [durationNormalize]

theorem durationNormalize_lengths (all_eps : List EpisodeResult) :
    (durationNormalize all_eps).2.2.length =
      (durationNormalize all_eps).2.1.length := by
  rw [durationNormalize]
  split_ifs <;> simp

/-- The `n == 0` fallback record of `calculate_fair_value` (source lines
114-127): every table uniform. -/
noncomputable def uniformResult (keyword : List Char)
    (ref_minutes : Option ℝ) : FairValueResult :=
  { keyword := keyword
    lambda_estimate := 0
    lookback_episodes := 0
    mean := 0
    variance := 0
    overdispersed := False
    reference_minutes := ref_minutes
    poisson_pmf := uniformPMF
    poisson_sf := uniformSF
    empirical_pmf := uniformPMF
    empirical_sf := uniformSF
    negbin_pmf := none
    negbin_sf := none }

/-- The main path of `calculate_fair_value` (source lines 129-195): sample
moments, overdispersion flag, the four model fits and the zero-inflation
test, over the normalized counts. -/
noncomputable def fitModels (nbinom_pmf : ℕ → ℝ → ℝ → ℝ)
    (keyword : List Char) (ref_minutes : Option ℝ)
    (eff_counts : List ℝ) (int_counts : List ℕ) : FairValueResult :=
  let n := eff_counts.length
  let mean := eff_counts.sum / (n : ℝ)
    let variance :=
      (eff_counts.map (fun c => (c - mean) ^ 2)).sum / ((max (n - 1) 1 : ℕ) : ℝ)
    let lam := if 0 < mean then mean else 1e-9
    let overdispersed : Prop := variance > mean * 1.2
    let poisson_pmf := _poisson_pmf_dict lam
    let empirical_pmf := _empirical_pmf int_counts n
    let negbin_pmf :=
      if overdispersed ∧ 0 < variance ∧ 0 < mean then
        _negbin_pmf_dict nbinom_pmf mean variance
      else none
    let zero_fraction := ((int_counts.countP (fun c => c == 0)) : ℝ) / n
    let expected_p0 :=
      if overdispersed ∧ variance > mean ∧ 0 < mean then
        let p_nb := mean / variance
        let r_nb := mean * p_nb / (1 - p_nb)
        if 0 < r_nb ∧ 0 < p_nb ∧ p_nb < 1 then nbinom_pmf 0 r_nb p_nb
        else Real.exp (-lam)
      else Real.exp (-lam)
    let zero_inflated : Prop :=
      zero_fraction ≥ 0.3 ∧ zero_fraction > expected_p0 + 0.15
    let zres :=
      if zero_inflated ∧ overdispersed ∧ 0 < variance ∧ 0 < mean then
        _zinb_pmf_dict nbinom_pmf mean variance zero_fraction
      else (none, none)
    { keyword := keyword
      lambda_estimate := lam
      lookback_episodes := n
      mean := mean
      variance := variance
      overdispersed := overdispersed
      reference_minutes := ref_minutes
      poisson_pmf := poisson_pmf
      poisson_sf := _sf_from_pmf poisson_pmf
      empirical_pmf := empirical_pmf
      empirical_sf := _sf_from_pmf empirical_pmf
      negbin_pmf := negbin_pmf
      negbin_sf := negbin_pmf.map _sf_from_pmf
      zero_inflated := zero_inflated
      pi_estimate := zres.2
      zinb_pmf := zres.1
      zinb_sf := zres.1.map _sf_from_pmf }

/-- `calculate_fair_value` from `fair_value.py`: the lookback slice feeds
the duration normalization; zero eligible episodes yield the uniform
fallback, otherwise the model-fitting path runs on the normalized counts. -/
noncomputable def calculate_fair_value (nbinom_pmf : ℕ → ℝ → ℝ → ℝ)
    (result : SearchResult) (lookback : ℕ) : FairValueResult :=
  let all_eps := result.episodes.take lookback
  let nd := durationNormalize all_eps
  let n := nd.2.1.length
  if n = 0 then uniformResult result.keyword nd.1
  else fitModels nbinom_pmf result.keyword nd.1 nd.2.1 nd.2.2

/-- `recommended_pmf` from `fair_value.py`: the deterministic
model-selection cascade ZINB → NB → empirical → Poisson. -/
noncomputable def recommended_pmf (fv : FairValueResult) : ℕ → ℝ :=
  if h : fv.zero_inflated ∧ fv.zinb_pmf.isSome then fv.zinb_pmf.get h.2
  else if h : fv.overdispersed ∧ fv.negbin_pmf.isSome then fv.negbin_pmf.get h.2
  else if 10 ≤ fv.lookback_episodes then fv.empirical_pmf
  else fv.poisson_pmf

/-- `recommended_sf` from `fair_value.py`. -/
noncomputable def recommended_sf (fv : FairValueResult) : ℕ → ℝ :=
  _sf_from_pmf (recommended_pmf fv)

/-! ### Claims about the estimator -/

/-- C2: `recommended_pmf` selects by the fixed deterministic priority:
the ZINB table when the zero-inflation flag is set and that table is
available; otherwise the NB table when flagged overdispersed and the NB fit
succeeded; otherwise the empirical table when the lookback has at least 10
episodes; otherwise the Poisson table. -/
theorem recommended_pmf_priority (fv : FairValueResult) :
    (∀ t, fv.zero_inflated → fv.zinb_pmf = some t → recommended_pmf fv = t) ∧
    (∀ t, ¬ (fv.zero_inflated ∧ fv.zinb_pmf.isSome) → fv.overdispersed →
      fv.negbin_pmf = some t → recommended_pmf fv = t) ∧
    (¬ (fv.zero_inflated ∧ fv.zinb_pmf.isSome) →
      ¬ (fv.overdispersed ∧ fv.negbin_pmf.isSome) →
      10 ≤ fv.lookback_episodes → recommended_pmf fv = fv.empirical_pmf) ∧
    (¬ (fv.zero_inflated ∧ fv.zinb_pmf.isSome) →
      ¬ (fv.overdispersed ∧ fv.negbin_pmf.isSome) →
      fv.lookback_episodes < 10 → recommended_pmf fv = fv.poisson_pmf) := by
  refine ⟨?_, ?_, ?_, ?_⟩
  · intro t hz hsome
    rw [recommended_pmf, dif_pos ⟨hz, by simp [hsome]⟩]
    simp only [hsome, Option.get_some]
  · intro t hnz ho hsome
    rw [recommended_pmf, dif_neg hnz, dif_pos ⟨ho, by simp [hsome]⟩]
    simp only [hsome, Option.get_some]
  · intro hnz hnb h10
    rw [recommended_pmf, dif_neg hnz, dif_neg hnb, if_pos h10]
  · intro hnz hnb hlt
    rw [recommended_pmf, dif_neg hnz, dif_neg hnb, if_neg (by omega)]

/-- Stand-in for the external `scipy.stats.nbinom.pmf` used to build closed
concrete inputs (the claims settled on these inputs do not depend on its
values). -/
noncomputable def nbinomZero : ℕ → ℝ → ℝ → ℝ := fun _ _ _ => 0

/-- An empty search result (no indexed episodes). -/
noncomputable def srEmpty : SearchResult := { keyword := [] }

/-- C7: with zero eligible episodes in the lookback, `calculate_fair_value`
returns a result (no error) whose Poisson and empirical tables are the
uniform distribution assigning `1/(MAX_BUCKET+1)` to each bucket
0..MAX_BUCKET. -/
theorem no_data_yields_uniform (nbinom_pmf : ℕ → ℝ → ℝ → ℝ)
    (r : SearchResult) (lb : ℕ) (h : r.episodes.take lb = []) :
    (calculate_fair_value nbinom_pmf r lb).poisson_pmf = uniformPMF ∧
    (calculate_fair_value nbinom_pmf r lb).empirical_pmf = uniformPMF ∧
    (∀ k, k ≤ MAX_BUCKET → uniformPMF k = 1 / ((MAX_BUCKET : ℝ) + 1)) := by
  refine ⟨?_, ?_, fun k hk => by rw [uniformPMF]; simp [hk]⟩ <;>
  · simp [calculate_fair_value, h, durationNormalize_nil, uniformResult]

/-- Witness for the C7 theorem: the empty search result. -/
theorem no_data_yields_uniform_witness :
    (calculate_fair_value nbinomZero srEmpty 20).poisson_pmf = uniformPMF ∧
    (calculate_fair_value nbinomZero srEmpty 20).empirical_pmf = uniformPMF ∧
    (∀ k, k ≤ MAX_BUCKET → uniformPMF k = 1 / ((MAX_BUCKET : ℝ) + 1)) :=
  no_data_yields_uniform nbinomZero srEmpty 20 (by simp [srEmpty])

/-! ### Normalization lemmas for the probability tables (claim C3) -/

theorem poisson_tail_le_one (lam : ℝ) :
    ∑ j ∈ Finset.range MAX_BUCKET, _poisson_pmf lam j ≤ 1 := by
  by_cases h : lam ≤ 0
  · have hrw : ∀ j ∈ Finset.range MAX_BUCKET, _poisson_pmf lam j =
        if j = 0 then (1 : ℝ) else 0 := by
      intro j _; rw [_poisson_pmf, if_pos h]
    rw [Finset.sum_congr rfl hrw]
    simp [MAX_BUCKET]
  · push_neg at h
    have hrw : ∀ j ∈ Finset.range MAX_BUCKET, _poisson_pmf lam j =
        Real.exp (-lam) * (lam ^ j / (Nat.factorial j : ℝ)) := by
      intro j _; rw [_poisson_pmf, if_neg (not_le.mpr h)]; ring
    rw [Finset.sum_congr rfl hrw, ← Finset.mul_sum]
    calc Real.exp (-lam) *
          ∑ j ∈ Finset.range MAX_BUCKET, lam ^ j / (Nat.factorial j : ℝ)
        ≤ Real.exp (-lam) * Real.exp lam :=
          mul_le_mul_of_nonneg_left
            (Real.sum_le_exp_of_nonneg h.le MAX_BUCKET) (Real.exp_nonneg _)
      _ = 1 := by rw [← Real.exp_add]; simp

theorem poisson_dict_sum (lam : ℝ) :
    ∑ k ∈ Finset.range (MAX_BUCKET + 1), _poisson_pmf_dict lam k = 1 := by
  rw [Finset.sum_range_succ]
  have h1 : ∀ k ∈ Finset.range MAX_BUCKET,
      _poisson_pmf_dict lam k = _poisson_pmf lam k := by
    intro k hk
    rw [_poisson_pmf_dict, if_pos (Finset.mem_range.mp hk)]
  rw [Finset.sum_congr rfl h1, _poisson_pmf_dict,
    if_neg (lt_irrefl MAX_BUCKET), if_pos rfl,
    max_eq_right (by linarith [poisson_tail_le_one lam])]
  ring

theorem empirical_bucket_total (counts : List ℕ) :
    ∑ k ∈ Finset.range (MAX_BUCKET + 1),
      ((counts.countP (fun c => min c MAX_BUCKET == k)) : ℝ) =
      (counts.length : ℝ) := by
  induction counts with
  | nil => simp
  | cons c rest ih =>
    have hstep : ∀ k ∈ Finset.range (MAX_BUCKET + 1),
        (((c :: rest).countP (fun c' => min c' MAX_BUCKET == k)) : ℝ) =
          ((rest.countP (fun c' => min c' MAX_BUCKET == k)) : ℝ) +
          (if min c MAX_BUCKET = k then (1 : ℝ) else 0) := by
      intro k _
      rw [List.countP_cons]
      by_cases hc : min c MAX_BUCKET = k
      · simp [hc]
      · simp [hc]
    rw [Finset.sum_congr rfl hstep, Finset.sum_add_distrib, ih]
    have hmem : min c MAX_BUCKET ∈ Finset.range (MAX_BUCKET + 1) := by
      rw [Finset.mem_range]
      omega
    simp [hmem]

theorem empirical_pmf_sum (counts : List ℕ) (hne : counts ≠ []) :
    ∑ k ∈ Finset.range (MAX_BUCKET + 1),
      _empirical_pmf counts counts.length k = 1 := by
  have hlen : 0 < counts.length := List.length_pos.mpr hne
  have h1 : ∀ k ∈ Finset.range (MAX_BUCKET + 1),
      _empirical_pmf counts counts.length k =
        ((counts.countP (fun c => min c MAX_BUCKET == k)) : ℝ) /
          (counts.length : ℝ) := by
    intro k hk
    have hk' := Finset.mem_range.mp hk
    rw [_empirical_pmf, if_pos (by omega : k ≤ MAX_BUCKET)]
  rw [Finset.sum_congr rfl h1, ← Finset.sum_div, empirical_bucket_total]
  exact div_self (ne_of_gt (by exact_mod_cast hlen))

theorem tail_absorb_sum (f : ℕ → ℝ)
    (hf : ∑ j ∈ Finset.range MAX_BUCKET, f j ≤ 1) :
    ∑ k ∈ Finset.range (MAX_BUCKET + 1),
      (if k < MAX_BUCKET then f k
       else if k = MAX_BUCKET then
         max 0 (1 - ∑ j ∈ Finset.range MAX_BUCKET, f j)
       else 0) = 1 := by
  rw [Finset.sum_range_succ]
  have h1 : ∀ k ∈ Finset.range MAX_BUCKET,
      (if k < MAX_BUCKET then f k
       else if k = MAX_BUCKET then
         max 0 (1 - ∑ j ∈ Finset.range MAX_BUCKET, f j)
       else 0) = f k :=
    fun k hk => if_pos (Finset.mem_range.mp hk)
  rw [Finset.sum_congr rfl h1, if_neg (lt_irrefl MAX_BUCKET), if_pos rfl,
    max_eq_right (by linarith)]
  ring

theorem negbin_dict_sum (nbinom_pmf : ℕ → ℝ → ℝ → ℝ)
    (mean variance : ℝ) (t : ℕ → ℝ)
    (hsub : ∀ r p, 0 < r → 0 < p → p < 1 →
      ∑ j ∈ Finset.range MAX_BUCKET, nbinom_pmf j r p ≤ 1)
    (ht : _negbin_pmf_dict nbinom_pmf mean variance = some t) :
    ∑ k ∈ Finset.range (MAX_BUCKET + 1), t k = 1 := by
  simp only [_negbin_pmf_dict] at ht
  split_ifs at ht with h1 h2
  push_neg at h2
  obtain ⟨hr, hp⟩ := h2
  rw [Option.some.injEq] at ht
  subst ht
  exact tail_absorb_sum _ (hsub _ _ hr hp.1 hp.2)

theorem zinb_dict_sum (nbinom_pmf : ℕ → ℝ → ℝ → ℝ)
    (mean variance zero_fraction : ℝ) (t : ℕ → ℝ)
    (hsub : ∀ r p, 0 < r → 0 < p → p < 1 →
      ∑ j ∈ Finset.range MAX_BUCKET, nbinom_pmf j r p ≤ 1)
    (ht : (_zinb_pmf_dict nbinom_pmf mean variance zero_fraction).1 = some t) :
    ∑ k ∈ Finset.range (MAX_BUCKET + 1), t k = 1 := by
  simp only [_zinb_pmf_dict] at ht
  set P := mean / variance with hP
  set R := mean * P / (1 - P) with hR
  set p0 := nbinom_pmf 0 R P with hp0
  set piw := max 0 (min ((zero_fraction - p0) / (1 - p0)) 0.999) with hpiw
  split_ifs at ht with h1 h2 h3
  dsimp only at ht
  push_neg at h2
  obtain ⟨hr, hp⟩ := h2
  rw [Option.some.injEq] at ht
  subst ht
  have hpi0 : 0 ≤ piw := le_max_left _ _
  have hpi1 : piw ≤ 0.999 := max_le (by norm_num) (min_le_right _ _)
  have hnb := hsub R P hr hp.1 hp.2
  have hg : ∑ j ∈ Finset.range MAX_BUCKET,
      ((if j = 0 then piw else 0) + (1 - piw) * nbinom_pmf j R P) ≤ 1 := by
    rw [Finset.sum_add_distrib, ← Finset.mul_sum]
    have hsum0 : ∑ j ∈ Finset.range MAX_BUCKET,
        (if j = 0 then piw else 0) = piw := by
      simp [MAX_BUCKET]
    rw [hsum0]
    nlinarith [hnb, hpi0, hpi1]
  exact tail_absorb_sum
    (fun j => (if j = 0 then piw else 0) + (1 - piw) * nbinom_pmf j R P) hg

theorem uniform_pmf_sum :
    ∑ k ∈ Finset.range (MAX_BUCKET + 1), uniformPMF k = 1 := by
  have h1 : ∀ k ∈ Finset.range (MAX_BUCKET + 1),
      uniformPMF k = 1 / ((MAX_BUCKET : ℝ) + 1) := by
    intro k hk
    have hk' := Finset.mem_range.mp hk
    rw [uniformPMF, if_pos (by omega)]
  rw [Finset.sum_congr rfl h1, Finset.sum_const, Finset.card_range]
  norm_num [MAX_BUCKET]

theorem sf_from_pmf_at_zero (pmf : ℕ → ℝ) : _sf_from_pmf pmf 0 = 1 := by
  rw [_sf_from_pmf]
  norm_num [MAX_BUCKET]

theorem empirical_pmf_sum' (counts : List ℕ) (n : ℕ) (hn : n = counts.length)
    (hne : counts ≠ []) :
    ∑ k ∈ Finset.range (MAX_BUCKET + 1), _empirical_pmf counts n k = 1 := by
  subst hn
  exact empirical_pmf_sum counts hne

theorem fitModels_poisson_pmf (nbinom_pmf : ℕ → ℝ → ℝ → ℝ)
    (kw : List Char) (rm : Option ℝ) (eff : List ℝ) (ic : List ℕ) :
    (fitModels nbinom_pmf kw rm eff ic).poisson_pmf =
      _poisson_pmf_dict (if 0 < eff.sum / (eff.length : ℝ) then
        eff.sum / (eff.length : ℝ) else 1e-9) := rfl

theorem fitModels_empirical_pmf (nbinom_pmf : ℕ → ℝ → ℝ → ℝ)
    (kw : List Char) (rm : Option ℝ) (eff : List ℝ) (ic : List ℕ) :
    (fitModels nbinom_pmf kw rm eff ic).empirical_pmf =
      _empirical_pmf ic eff.length := rfl

theorem result_tables_sum (nbinom_pmf : ℕ → ℝ → ℝ → ℝ) (r : SearchResult)
    (lb : ℕ) :
    (∑ k ∈ Finset.range (MAX_BUCKET + 1),
      (calculate_fair_value nbinom_pmf r lb).poisson_pmf k) = 1 ∧
    (∑ k ∈ Finset.range (MAX_BUCKET + 1),
      (calculate_fair_value nbinom_pmf r lb).empirical_pmf k) = 1 := by
  simp only [calculate_fair_value]
  by_cases h0 : (durationNormalize (r.episodes.take lb)).2.1.length = 0
  · rw [if_pos h0]
    exact ⟨uniform_pmf_sum, uniform_pmf_sum⟩
  · rw [if_neg h0]
    have hlen := durationNormalize_lengths (r.episodes.take lb)
    rw [fitModels_poisson_pmf, fitModels_empirical_pmf]
    refine ⟨poisson_dict_sum _, empirical_pmf_sum' _ _ hlen.symm ?_⟩
    intro hnil
    exact h0 (by rw [← hlen, hnil, List.length_nil])

/-- C3: every probability table the estimator produces is normalized — the
Poisson dict for any rate, the empirical dict for any nonempty count list,
any Negative-Binomial or Zero-Inflated-NB table the fitters return (under
the assumption that the external `scipy.stats.nbinom.pmf` has partial sums
at most 1 on parameters `r > 0`, `0 < p < 1`), the no-data uniform table,
and the Poisson/empirical tables of every `calculate_fair_value` result —
each sums to 1 over the buckets 0..MAX_BUCKET, and the survival function
`_sf_from_pmf` of any table satisfies `SF(0) = 1` (as does the inline
no-data survival table). -/
theorem pmf_tables_normalized :
    (∀ lam : ℝ, (∑ k ∈ Finset.range (MAX_BUCKET + 1),
      _poisson_pmf_dict lam k) = 1) ∧
    (∀ counts : List ℕ, counts ≠ [] →
      (∑ k ∈ Finset.range (MAX_BUCKET + 1),
        _empirical_pmf counts counts.length k) = 1) ∧
    (∀ (nbinom_pmf : ℕ → ℝ → ℝ → ℝ) (mean variance : ℝ) (t : ℕ → ℝ),
      (∀ r p, 0 < r → 0 < p → p < 1 →
        (∑ j ∈ Finset.range MAX_BUCKET, nbinom_pmf j r p) ≤ 1) →
      _negbin_pmf_dict nbinom_pmf mean variance = some t →
      (∑ k ∈ Finset.range (MAX_BUCKET + 1), t k) = 1) ∧
    (∀ (nbinom_pmf : ℕ → ℝ → ℝ → ℝ) (mean variance zf : ℝ) (t : ℕ → ℝ),
      (∀ r p, 0 < r → 0 < p → p < 1 →
        (∑ j ∈ Finset.range MAX_BUCKET, nbinom_pmf j r p) ≤ 1) →
      (_zinb_pmf_dict nbinom_pmf mean variance zf).1 = some t →
      (∑ k ∈ Finset.range (MAX_BUCKET + 1), t k) = 1) ∧
    ((∑ k ∈ Finset.range (MAX_BUCKET + 1), uniformPMF k) = 1) ∧
    (∀ (nbinom_pmf : ℕ → ℝ → ℝ → ℝ) (r : SearchResult) (lb : ℕ),
      (∑ k ∈ Finset.range (MAX_BUCKET + 1),
        (calculate_fair_value nbinom_pmf r lb).poisson_pmf k) = 1 ∧
      (∑ k ∈ Finset.range (MAX_BUCKET + 1),
        (calculate_fair_value nbinom_pmf r lb).empirical_pmf k) = 1) ∧
    (∀ pmf : ℕ → ℝ, _sf_from_pmf pmf 0 = 1) ∧
    uniformSF 0 = 1 :=
  ⟨poisson_dict_sum,
   empirical_pmf_sum,
   fun nb m v t hsub ht => negbin_dict_sum nb m v t hsub ht,
   fun nb m v zf t hsub ht => zinb_dict_sum nb m v zf t hsub ht,
   uniform_pmf_sum,
   result_tables_sum,
   sf_from_pmf_at_zero,
   by rw [uniformSF]; norm_num [MAX_BUCKET]⟩

/-! ### Negative-Binomial availability (claim C4) -/

theorem fitModels_mean (nbinom_pmf : ℕ → ℝ → ℝ → ℝ) (kw : List Char)
    (rm : Option ℝ) (eff : List ℝ) (ic : List ℕ) :
    (fitModels nbinom_pmf kw rm eff ic).mean = eff.sum / (eff.length : ℝ) := rfl

theorem fitModels_variance (nbinom_pmf : ℕ → ℝ → ℝ → ℝ) (kw : List Char)
    (rm : Option ℝ) (eff : List ℝ) (ic : List ℕ) :
    (fitModels nbinom_pmf kw rm eff ic).variance =
      ((eff.map (fun c => (c - eff.sum / (eff.length : ℝ)) ^ 2)).sum) /
        ((max (eff.length - 1) 1 : ℕ) : ℝ) := rfl

theorem fitModels_overdispersed (nbinom_pmf : ℕ → ℝ → ℝ → ℝ) (kw : List Char)
    (rm : Option ℝ) (eff : List ℝ) (ic : List ℕ) :
    (fitModels nbinom_pmf kw rm eff ic).overdispersed =
      ((fitModels nbinom_pmf kw rm eff ic).variance >
        (fitModels nbinom_pmf kw rm eff ic).mean * 1.2) := rfl

theorem fitModels_lookback (nbinom_pmf : ℕ → ℝ → ℝ → ℝ) (kw : List Char)
    (rm : Option ℝ) (eff : List ℝ) (ic : List ℕ) :
    (fitModels nbinom_pmf kw rm eff ic).lookback_episodes = eff.length := rfl

theorem fitModels_reference (nbinom_pmf : ℕ → ℝ → ℝ → ℝ) (kw : List Char)
    (rm : Option ℝ) (eff : List ℝ) (ic : List ℕ) :
    (fitModels nbinom_pmf kw rm eff ic).reference_minutes = rm := rfl

theorem fitModels_negbin (nbinom_pmf : ℕ → ℝ → ℝ → ℝ) (kw : List Char)
    (rm : Option ℝ) (eff : List ℝ) (ic : List ℕ) :
    (fitModels nbinom_pmf kw rm eff ic).negbin_pmf =
      if (fitModels nbinom_pmf kw rm eff ic).overdispersed ∧
          0 < (fitModels nbinom_pmf kw rm eff ic).variance ∧
          0 < (fitModels nbinom_pmf kw rm eff ic).mean then
        _negbin_pmf_dict nbinom_pmf (fitModels nbinom_pmf kw rm eff ic).mean
          (fitModels nbinom_pmf kw rm eff ic).variance
      else none := rfl

theorem _negbin_pmf_dict_isSome_of (nbinom_pmf : ℕ → ℝ → ℝ → ℝ)
    (mean variance : ℝ) (hm : 0 < mean) (hv : mean < variance) :
    (_negbin_pmf_dict nbinom_pmf mean variance).isSome = true := by
  have hvar : 0 < variance := lt_trans hm hv
  have hp1 : 0 < mean / variance := div_pos hm hvar
  have hp2 : mean / variance < 1 := (div_lt_one hvar).mpr hv
  have hr : 0 < mean * (mean / variance) / (1 - mean / variance) :=
    div_pos (mul_pos hm hp1) (by linarith)
  have hcond : ¬ (mean * (mean / variance) / (1 - mean / variance) ≤ 0 ∨
      ¬ (0 < mean / variance ∧ mean / variance < 1)) := by
    push_neg
    exact ⟨hr, hp1, hp2⟩
  simp only [_negbin_pmf_dict]
  rw [if_neg (not_le.mpr hv), if_neg hcond]
  rfl

theorem negbin_gate (nbinom_pmf : ℕ → ℝ → ℝ → ℝ) (r : SearchResult)
    (lb : ℕ) :
    ((calculate_fair_value nbinom_pmf r lb).negbin_pmf.isSome = true ↔
      ((calculate_fair_value nbinom_pmf r lb).variance >
        (calculate_fair_value nbinom_pmf r lb).mean * 1.2 ∧
       0 < (calculate_fair_value nbinom_pmf r lb).mean)) ∧
    ((calculate_fair_value nbinom_pmf r lb).overdispersed ↔
      (calculate_fair_value nbinom_pmf r lb).variance >
        (calculate_fair_value nbinom_pmf r lb).mean * 1.2) ∧
    ((calculate_fair_value nbinom_pmf r lb).negbin_pmf ≠ none →
      (calculate_fair_value nbinom_pmf r lb).negbin_pmf =
        _negbin_pmf_dict nbinom_pmf
          (calculate_fair_value nbinom_pmf r lb).mean
          (calculate_fair_value nbinom_pmf r lb).variance) := by
  simp only [calculate_fair_value]
  by_cases h0 : (durationNormalize (r.episodes.take lb)).2.1.length = 0
  · rw [if_pos h0]
    refine ⟨?_, ?_, ?_⟩
    · simp [uniformResult]
    · simp only [uniformResult]
      norm_num
    · simp [uniformResult]
  · rw [if_neg h0]
    rw [fitModels_negbin]
    constructor
    · constructor
      · intro hs
        by_cases hc : (fitModels nbinom_pmf r.keyword
            (durationNormalize (r.episodes.take lb)).1
            (durationNormalize (r.episodes.take lb)).2.1
            (durationNormalize (r.episodes.take lb)).2.2).overdispersed ∧
            0 < (fitModels nbinom_pmf r.keyword
              (durationNormalize (r.episodes.take lb)).1
              (durationNormalize (r.episodes.take lb)).2.1
              (durationNormalize (r.episodes.take lb)).2.2).variance ∧
            0 < (fitModels nbinom_pmf r.keyword
              (durationNormalize (r.episodes.take lb)).1
              (durationNormalize (r.episodes.take lb)).2.1
              (durationNormalize (r.episodes.take lb)).2.2).mean
        · rw [fitModels_overdispersed] at hc
          exact ⟨hc.1, hc.2.2⟩
        · rw [if_neg hc] at hs
          exact absurd hs (by simp)
      · intro hcond
        have ho := (fitModels_overdispersed nbinom_pmf r.keyword
          (durationNormalize (r.episodes.take lb)).1
          (durationNormalize (r.episodes.take lb)).2.1
          (durationNormalize (r.episodes.take lb)).2.2) ▸ hcond.1
        have hm := hcond.2
        have hvar : 0 < (fitModels nbinom_pmf r.keyword
            (durationNormalize (r.episodes.take lb)).1
            (durationNormalize (r.episodes.take lb)).2.1
            (durationNormalize (r.episodes.take lb)).2.2).variance := by
          rw [fitModels_overdispersed] at ho
          nlinarith [hcond.1, hm]
        rw [if_pos ⟨ho, hvar, hm⟩]
        exact _negbin_pmf_dict_isSome_of nbinom_pmf _ _ hm (by nlinarith [hcond.1])
    · refine ⟨Iff.of_eq (fitModels_overdispersed nbinom_pmf r.keyword _ _ _), ?_⟩
      intro hne
      by_cases hc : (fitModels nbinom_pmf r.keyword
          (durationNormalize (r.episodes.take lb)).1
          (durationNormalize (r.episodes.take lb)).2.1
          (durationNormalize (r.episodes.take lb)).2.2).overdispersed ∧
          0 < (fitModels nbinom_pmf r.keyword
            (durationNormalize (r.episodes.take lb)).1
            (durationNormalize (r.episodes.take lb)).2.1
            (durationNormalize (r.episodes.take lb)).2.2).variance ∧
          0 < (fitModels nbinom_pmf r.keyword
            (durationNormalize (r.episodes.take lb)).1
            (durationNormalize (r.episodes.take lb)).2.1
            (durationNormalize (r.episodes.take lb)).2.2).mean
      · rw [if_pos hc]
      · rw [if_neg hc] at hne
        exact absurd rfl hne

/-- C4 (amended): the Negative-Binomial fit is `_negbin_pmf_dict`, the
method-of-moments fit with `p = mean/variance` and `r = mean*p/(1-p)`; a NB
table is present in the result exactly when the sample is overdispersed
(`variance > 1.2 * mean`, the `overdispersed` flag) and the mean is
positive — conditions that entail `variance > mean`, `p ∈ (0,1)` and
`r > 0`; when they fail the model is `None` (unavailable), never an
error.  (The claim's condition `variance > mean` alone is not sufficient:
see the counterexample with mean 7, variance 8.) -/
theorem negbin_fit_availability (nbinom_pmf : ℕ → ℝ → ℝ → ℝ)
    (r : SearchResult) (lb : ℕ) :
    ((calculate_fair_value nbinom_pmf r lb).negbin_pmf.isSome = true ↔
      ((calculate_fair_value nbinom_pmf r lb).overdispersed ∧
       0 < (calculate_fair_value nbinom_pmf r lb).mean)) ∧
    ((calculate_fair_value nbinom_pmf r lb).negbin_pmf ≠ none →
      (calculate_fair_value nbinom_pmf r lb).negbin_pmf =
        _negbin_pmf_dict nbinom_pmf
          (calculate_fair_value nbinom_pmf r lb).mean
          (calculate_fair_value nbinom_pmf r lb).variance) ∧
    (((calculate_fair_value nbinom_pmf r lb).overdispersed ∧
       0 < (calculate_fair_value nbinom_pmf r lb).mean) →
      ((calculate_fair_value nbinom_pmf r lb).variance >
        (calculate_fair_value nbinom_pmf r lb).mean ∧
       0 < (calculate_fair_value nbinom_pmf r lb).mean /
         (calculate_fair_value nbinom_pmf r lb).variance ∧
       (calculate_fair_value nbinom_pmf r lb).mean /
         (calculate_fair_value nbinom_pmf r lb).variance < 1 ∧
       0 < (calculate_fair_value nbinom_pmf r lb).mean *
         ((calculate_fair_value nbinom_pmf r lb).mean /
           (calculate_fair_value nbinom_pmf r lb).variance) /
         (1 - (calculate_fair_value nbinom_pmf r lb).mean /
           (calculate_fair_value nbinom_pmf r lb).variance))) := by
  obtain ⟨hiff, hover, hfit⟩ := negbin_gate nbinom_pmf r lb
  refine ⟨by rw [hiff, hover], hfit, ?_⟩
  rintro ⟨ho, hm⟩
  rw [hover] at ho
  have hv : (calculate_fair_value nbinom_pmf r lb).mean <
      (calculate_fair_value nbinom_pmf r lb).variance := by nlinarith
  have hvar : 0 < (calculate_fair_value nbinom_pmf r lb).variance :=
    lt_trans hm hv
  have hp1 : 0 < (calculate_fair_value nbinom_pmf r lb).mean /
      (calculate_fair_value nbinom_pmf r lb).variance := div_pos hm hvar
  have hp2 : (calculate_fair_value nbinom_pmf r lb).mean /
      (calculate_fair_value nbinom_pmf r lb).variance < 1 :=
    (div_lt_one hvar).mpr hv
  exact ⟨hv, hp1, hp2, div_pos (mul_pos hm hp1) (by linarith)⟩

/-- Episode fixture: 5 mentions, unknown (zero) duration. -/
noncomputable def epRawA : EpisodeResult :=
  { episode_id := 1, title := [], episode_date := none, episode_number := none,
    duration_seconds := 0, count := 5, per_minute := per_minute_rate 5 0 }

/-- Episode fixture: 9 mentions, unknown (zero) duration. -/
noncomputable def epRawB : EpisodeResult :=
  { episode_id := 2, title := [], episode_date := none, episode_number := none,
    duration_seconds := 0, count := 9, per_minute := per_minute_rate 9 0 }

/-- Search-result fixture with raw counts 5 and 9 (mean 7, variance 8). -/
noncomputable def srRaw : SearchResult :=
  { keyword := [], episodes := [epRawA, epRawB] }

theorem srRaw_normalize :
    durationNormalize (srRaw.episodes.take 20) =
      (none, [(5 : ℝ), 9], [5, 9]) := by
  have htake : srRaw.episodes.take 20 = [epRawA, epRawB] := by
    rw [srRaw]
    exact List.take_of_length_le (by simp)
  rw [htake, durationNormalize]
  rw [if_neg (by simp [epRawA, epRawB])]
  simp [epRawA, epRawB]

theorem srRaw_moments :
    (calculate_fair_value nbinomZero srRaw 20).mean = 7 ∧
    (calculate_fair_value nbinomZero srRaw 20).variance = 8 := by
  have hcalc : calculate_fair_value nbinomZero srRaw 20 =
      fitModels nbinomZero srRaw.keyword none [(5 : ℝ), 9] [5, 9] := by
    simp only [calculate_fair_value, srRaw_normalize]
    norm_num
  rw [hcalc, fitModels_mean, fitModels_variance]
  norm_num

/-- C4 counterexample: raw counts 5 and 9 give mean 7 and variance 8, so
variance > mean, the method-of-moments `p = 7/8` lies in (0,1) and
`r = 49 > 0`; yet no Negative-Binomial table is produced, because the
source additionally requires `variance > 1.2 * mean` (8 < 8.4). -/
theorem negbin_fit_availability_cex :
    (calculate_fair_value nbinomZero srRaw 20).mean = 7 ∧
    (calculate_fair_value nbinomZero srRaw 20).variance = 8 ∧
    (calculate_fair_value nbinomZero srRaw 20).variance >
      (calculate_fair_value nbinomZero srRaw 20).mean ∧
    0 < (calculate_fair_value nbinomZero srRaw 20).mean /
      (calculate_fair_value nbinomZero srRaw 20).variance ∧
    (calculate_fair_value nbinomZero srRaw 20).mean /
      (calculate_fair_value nbinomZero srRaw 20).variance < 1 ∧
    0 < (calculate_fair_value nbinomZero srRaw 20).mean *
      ((calculate_fair_value nbinomZero srRaw 20).mean /
        (calculate_fair_value nbinomZero srRaw 20).variance) /
      (1 - (calculate_fair_value nbinomZero srRaw 20).mean /
        (calculate_fair_value nbinomZero srRaw 20).variance) ∧
    (calculate_fair_value nbinomZero srRaw 20).negbin_pmf = none := by
  obtain ⟨hm, hv⟩ := srRaw_moments
  have hnone : (calculate_fair_value nbinomZero srRaw 20).negbin_pmf = none := by
    have hno : ¬ (calculate_fair_value nbinomZero srRaw 20).negbin_pmf.isSome
        = true := by
      rw [(negbin_gate nbinomZero srRaw 20).1, hm, hv]
      norm_num
    exact Option.not_isSome_iff_eq_none.mp hno
  rw [hm, hv]
  refine ⟨rfl, rfl, by norm_num, by norm_num, by norm_num, by norm_num, hnone⟩

/-! ### Duration normalization (claim C6) -/

/-- The duration-bearing episodes of a lookback slice
(`eps_with_dur` in `calculate_fair_value`). -/
noncomputable def epsWithDur (all_eps : List EpisodeResult) :
    List EpisodeResult :=
  all_eps.filter (fun ep => 0 < ep.duration_seconds)

/-- The reference episode length in minutes used by `calculate_fair_value`:
the element at index `len(dur_sorted) // 2` of the sorted duration list
(the upper median for even lengths). -/
noncomputable def refMinutesOf (eps : List EpisodeResult) : ℝ :=
  (((sortedNat (eps.map (fun ep => ep.duration_seconds))).getD
    ((sortedNat (eps.map (fun ep => ep.duration_seconds))).length / 2) 0 :
      ℕ) : ℝ) / 60

theorem durationNormalize_pos (all_eps : List EpisodeResult)
    (h : epsWithDur all_eps ≠ []) :
    durationNormalize all_eps =
      (some (refMinutesOf (epsWithDur all_eps)),
       (epsWithDur all_eps).map (fun ep =>
         ep.per_minute * refMinutesOf (epsWithDur all_eps)),
       (epsWithDur all_eps).map (fun ep =>
         (max 0 (pythonRound
           (ep.per_minute * refMinutesOf (epsWithDur all_eps)))).toNat)) := by
  simp only [durationNormalize]
  rw [if_pos (show all_eps.filter (fun ep => 0 < ep.duration_seconds) ≠ []
    from h)]
  rfl

theorem durationNormalize_neg (all_eps : List EpisodeResult)
    (h : epsWithDur all_eps = []) :
    durationNormalize all_eps =
      (none, all_eps.map (fun ep => (ep.count : ℝ)),
       all_eps.map (fun ep => ep.count)) := by
  simp only [durationNormalize]
  rw [if_neg (show ¬ all_eps.filter (fun ep => 0 < ep.duration_seconds) ≠ []
    from by simp [show all_eps.filter (fun ep => 0 < ep.duration_seconds) = []
      from h])]

/-- C6 (amended): when the lookback has duration data, the estimator's
reference length is the UPPER median — the element at index `n // 2` of the
sorted durations, in minutes, not the statistical median — taken over the
duration-bearing lookback episodes, and each such episode's count is
rescaled to `per_minute * reference` (rounded half-to-even and clamped at
zero for the integer-support tables); with no duration data, raw counts are
used unmodified. -/
theorem duration_normalization (nbinom_pmf : ℕ → ℝ → ℝ → ℝ)
    (r : SearchResult) (lb : ℕ) :
    (epsWithDur (r.episodes.take lb) ≠ [] →
      (calculate_fair_value nbinom_pmf r lb).reference_minutes =
        some (refMinutesOf (epsWithDur (r.episodes.take lb))) ∧
      (calculate_fair_value nbinom_pmf r lb).mean =
        (((epsWithDur (r.episodes.take lb)).map (fun ep =>
          ep.per_minute * refMinutesOf (epsWithDur (r.episodes.take lb)))).sum)
          / ((epsWithDur (r.episodes.take lb)).length : ℝ) ∧
      (calculate_fair_value nbinom_pmf r lb).empirical_pmf =
        _empirical_pmf ((epsWithDur (r.episodes.take lb)).map (fun ep =>
          (max 0 (pythonRound (ep.per_minute *
            refMinutesOf (epsWithDur (r.episodes.take lb))))).toNat))
          (epsWithDur (r.episodes.take lb)).length) ∧
    (epsWithDur (r.episodes.take lb) = [] →
      (calculate_fair_value nbinom_pmf r lb).reference_minutes = none ∧
      (r.episodes.take lb ≠ [] →
        (calculate_fair_value nbinom_pmf r lb).mean =
          (((r.episodes.take lb).map (fun ep => (ep.count : ℝ))).sum) /
            ((r.episodes.take lb).length : ℝ) ∧
        (calculate_fair_value nbinom_pmf r lb).empirical_pmf =
          _empirical_pmf ((r.episodes.take lb).map (fun ep => ep.count))
            (r.episodes.take lb).length)) := by
  constructor
  · intro h
    rw [calculate_fair_value]
    simp only [durationNormalize_pos (r.episodes.take lb) h]
    rw [if_neg (by simp [h])]
    refine ⟨fitModels_reference nbinom_pmf _ _ _ _, ?_, ?_⟩
    · rw [fitModels_mean, List.length_map]
    · rw [fitModels_empirical_pmf, List.length_map]
  · intro h
    rw [calculate_fair_value]
    simp only [durationNormalize_neg (r.episodes.take lb) h]
    by_cases ha : r.episodes.take lb = []
    · rw [if_pos (by simp [ha])]
      exact ⟨rfl, fun hne => absurd ha hne⟩
    · have hn : ¬ (((r.episodes.take lb).map
          (fun ep => (ep.count : ℝ))).length = 0) := by
        simp only [List.length_map, List.length_eq_zero]
        exact ha
      rw [if_neg hn]
      refine ⟨fitModels_reference nbinom_pmf _ _ _ _, fun _ => ⟨?_, ?_⟩⟩
      · rw [fitModels_mean, List.length_map]
      · rw [fitModels_empirical_pmf, List.length_map]

/-- Episode fixture: duration 60 s, 1 mention. -/
noncomputable def epDurC : EpisodeResult :=
  { episode_id := 1, title := [], episode_date := none, episode_number := none,
    duration_seconds := 60, count := 1, per_minute := per_minute_rate 1 60 }

/-- Episode fixture: duration 120 s, 2 mentions. -/
noncomputable def epDurD : EpisodeResult :=
  { episode_id := 2, title := [], episode_date := none, episode_number := none,
    duration_seconds := 120, count := 2, per_minute := per_minute_rate 2 120 }

/-- Search-result fixture with durations 60 s and 120 s. -/
noncomputable def srDur : SearchResult :=
  { keyword := [], episodes := [epDurC, epDurD] }

/-- Spec-side statistical median of a duration list, in minutes: the middle
element of the sorted list for odd lengths, the mean of the two middle
elements for even lengths. -/
noncomputable def specMedianMinutes (durs : List ℕ) : ℝ :=
  if (sortedNat durs).length % 2 = 1 then
    (((sortedNat durs).getD ((sortedNat durs).length / 2) 0 : ℕ) : ℝ) / 60
  else
    (((((sortedNat durs).getD ((sortedNat durs).length / 2 - 1) 0 : ℕ) : ℝ) +
      (((sortedNat durs).getD ((sortedNat durs).length / 2) 0 : ℕ) : ℝ)) / 2)
      / 60

/-- C6 counterexample: two lookback episodes of 60 s and 120 s.  The
estimator's reference length is `sorted[2 // 2] = 120 s = 2.0` minutes,
while the median duration is 90 s = 1.5 minutes — the code uses the upper
median, not the median the claim states. -/
theorem median_reference_cex :
    srDur.episodes.map (fun ep => ep.duration_seconds) = [60, 120] ∧
    (calculate_fair_value nbinomZero srDur 20).reference_minutes = some 2 ∧
    specMedianMinutes [60, 120] = 3 / 2 ∧
    (2 : ℝ) ≠ 3 / 2 := by
  have hmap : srDur.episodes.map (fun ep => ep.duration_seconds) =
      [60, 120] := by
    simp [srDur, epDurC, epDurD]
  have htake : srDur.episodes.take 20 = [epDurC, epDurD] := by
    rw [srDur]
    exact List.take_of_length_le (by simp)
  have hfil : epsWithDur (srDur.episodes.take 20) = [epDurC, epDurD] := by
    rw [htake, epsWithDur]
    simp [epDurC, epDurD]
  have hsort : sortedNat [60, 120] = [60, 120] := by
    simp [sortedNat, insertSorted]
  have hdurs : [epDurC, epDurD].map (fun ep => ep.duration_seconds) =
      [60, 120] := by
    simp [epDurC, epDurD]
  have href : refMinutesOf [epDurC, epDurD] = 2 := by
    rw [refMinutesOf, hdurs, hsort]
    norm_num [List.getD]
  have hrefm : (calculate_fair_value nbinomZero srDur 20).reference_minutes =
      some 2 := by
    rw [calculate_fair_value]
    simp only [durationNormalize_pos (srDur.episodes.take 20)
      (by rw [hfil]; simp)]
    rw [if_neg (by simp [hfil])]
    rw [fitModels_reference, hfil, href]
  have hmed : specMedianMinutes [60, 120] = 3 / 2 := by
    rw [specMedianMinutes, hsort]
    norm_num [List.getD]
  exact ⟨hmap, hrefm, hmed, by norm_num⟩

/-! ### Exclusion of zero-duration episodes (claim C10) -/

theorem epsWithDur_idem (l : List EpisodeResult) :
    epsWithDur (epsWithDur l) = epsWithDur l := by
  simp only [epsWithDur]
  exact List.filter_eq_self.mpr (fun a ha => (List.mem_filter.mp ha).2)

theorem calculate_fair_value_congr (nbinom_pmf : ℕ → ℝ → ℝ → ℝ)
    (r1 r2 : SearchResult) (lb1 lb2 : ℕ)
    (hk : r1.keyword = r2.keyword)
    (hE : epsWithDur (r1.episodes.take lb1) =
      epsWithDur (r2.episodes.take lb2))
    (hne : epsWithDur (r1.episodes.take lb1) ≠ []) :
    calculate_fair_value nbinom_pmf r1 lb1 =
      calculate_fair_value nbinom_pmf r2 lb2 := by
  have h2 : epsWithDur (r2.episodes.take lb2) ≠ [] := hE ▸ hne
  simp only [calculate_fair_value, durationNormalize_pos _ hne,
    durationNormalize_pos _ h2, hE, hk]

theorem calculate_fair_value_lookback_pos (nbinom_pmf : ℕ → ℝ → ℝ → ℝ)
    (r : SearchResult) (lb : ℕ)
    (hne : epsWithDur (r.episodes.take lb) ≠ []) :
    (calculate_fair_value nbinom_pmf r lb).lookback_episodes =
      (epsWithDur (r.episodes.take lb)).length := by
  rw [calculate_fair_value]
  simp only [durationNormalize_pos _ hne]
  rw [if_neg (by simp [hne])]
  rw [fitModels_lookback, List.length_map]

/-- C10: when at least one lookback episode has a positive duration, every
zero-duration lookback episode is excluded from the sample entirely: the
whole result (mean, variance, every fitted table, lookback_episodes) equals
the result computed on the duration-bearing episodes alone, and
`lookback_episodes` is their number. -/
theorem zero_duration_episodes_excluded (nbinom_pmf : ℕ → ℝ → ℝ → ℝ)
    (r : SearchResult) (lb : ℕ)
    (h : ∃ ep ∈ r.episodes.take lb, 0 < ep.duration_seconds) :
    calculate_fair_value nbinom_pmf r lb =
      calculate_fair_value nbinom_pmf
        { r with episodes := epsWithDur (r.episodes.take lb) }
        (epsWithDur (r.episodes.take lb)).length ∧
    (calculate_fair_value nbinom_pmf r lb).lookback_episodes =
      (epsWithDur (r.episodes.take lb)).length := by
  have hne : epsWithDur (r.episodes.take lb) ≠ [] := by
    obtain ⟨ep, hmem, hd⟩ := h
    intro hnil
    have hin : ep ∈ epsWithDur (r.episodes.take lb) := by
      rw [epsWithDur]
      simp only [List.mem_filter]
      exact ⟨hmem, by simpa using hd⟩
    rw [hnil] at hin
    exact absurd hin (List.not_mem_nil ep)
  refine ⟨?_, calculate_fair_value_lookback_pos nbinom_pmf r lb hne⟩
  apply calculate_fair_value_congr
  · rfl
  · dsimp only
    rw [List.take_length]
    exact (epsWithDur_idem _).symm
  · exact hne

/-- Witness for the C10 theorem: the two-episode fixture with durations
60 s and 120 s. -/
theorem zero_duration_episodes_excluded_witness :
    calculate_fair_value nbinomZero srDur 20 =
      calculate_fair_value nbinomZero
        { srDur with episodes := epsWithDur (srDur.episodes.take 20) }
        (epsWithDur (srDur.episodes.take 20)).length ∧
    (calculate_fair_value nbinomZero srDur 20).lookback_episodes =
      (epsWithDur (srDur.episodes.take 20)).length :=
  zero_duration_episodes_excluded nbinomZero srDur 20 (by
    refine ⟨epDurC, ?_, by norm_num [epDurC]⟩
    rw [show srDur.episodes.take 20 = [epDurC, epDurD] from
      List.take_of_length_le (by norm_num [srDur])]
    simp)

end JRE
